import Mathlib

/-! Verification of the imagep deep-zoom tile engine.

Shallow embedding of the pyramid-addressing core of `imagep`
(`src/imagep/deepzoom/image.py` and `src/imagep/deepzoom/generation.py`):

* the pyramid descriptor (`DeepzoomImage` metadata, `_calc_max_level`,
  `level_scale`, `max_tile_index`, `choose_level`);
* the coordinate mapper (`image_coords_to_tile_index`,
  `tile_index_to_image_coords`);
* the bounded tile cache (`_add_tile_to_cache`, `_enforce_cache_limit`,
  `set_tile_cache_limit`);
* a sequential operational model of the fetch scheduler
  (`cache_tiles` / `worker_io_loop` / `get_tile_data`);
* the visible-tile enumeration (`get_visible_tiles`);
* tile-path addressing (`_get_tile_source_path`, `create_sample`).

Python machine integers are modelled as `ℕ`/`ℤ`; Python floats (which in the
source only ever scale integers by exact powers of two, divide by integers and
floor) are modelled as exact rationals `ℚ`.  The one transcendental operation,
`math.log2` inside `choose_level`, is modelled over `ℝ`.
-/

namespace Imagep

/-- A tile key `(level, row, col)`, exactly `DeepzoomTile.key`. -/
abbrev TileKey := ℕ × ℤ × ℤ

/-- The metadata state of a `DeepzoomImage` after `_parse_dzi` plus the
`level_threshold` tunable (default `0.0`, settable by `set_level_threshold`)
and the tile-source identity (`source`, `is_url`) used by
`_get_tile_source_path`. -/
structure DeepzoomImage where
  width : ℕ
  height : ℕ
  tile_size : ℕ
  tile_overlap : ℕ
  image_format : List Char
  level_threshold : ℚ
  source : List Char
  is_url : Bool

/-- Python `_calc_max_level(width, height) = int(math.ceil(math.log2(max(width, height))))`,
the ceiling of the real base-2 logarithm, i.e. `Nat.clog 2 (max width height)`
(the agreement with `⌈Real.logb 2 _⌉` is proved in `max_level_ceil_logb`). -/
def calc_max_level (width height : ℕ) : ℕ :=
  Nat.clog 2 (max width height)

/-- Field `self.max_level`, set by `_parse_dzi` from `_calc_max_level`. -/
def DeepzoomImage.max_level (d : DeepzoomImage) : ℕ :=
  calc_max_level d.width d.height

/-- Python `level_scale(level) = 2 ** (level - self.max_level)` (exact: a power of two). -/
def DeepzoomImage.level_scale (d : DeepzoomImage) (level : ℤ) : ℚ :=
  2 ^ (level - (d.max_level : ℤ))

/-- Python `max_tile_index(level)`: `int(((w - 1) * scale) // tile_size)` per axis;
`//` on floats is `floor`, and `int` of an integral float is that integer. -/
def DeepzoomImage.max_tile_index (d : DeepzoomImage) (level : ℕ) : ℤ × ℤ :=
  (⌊((d.width : ℚ) - 1) * d.level_scale level / (d.tile_size : ℚ)⌋,
   ⌊((d.height : ℚ) - 1) * d.level_scale level / (d.tile_size : ℚ)⌋)

/-- Python `image_coords_to_tile_index(x, y, level)`: floor of scaled coordinates
over the tile size, per axis (returns `(column index, row index)`). -/
def DeepzoomImage.image_coords_to_tile_index (d : DeepzoomImage) (x y : ℚ)
    (level : ℕ) : ℤ × ℤ :=
  (⌊x * d.level_scale level / (d.tile_size : ℚ)⌋,
   ⌊y * d.level_scale level / (d.tile_size : ℚ)⌋)

/-- Python `tile_index_to_image_coords(idx_x, idx_y, level)`:
`(idx * tile_size) / scale` per axis. -/
def DeepzoomImage.tile_index_to_image_coords (d : DeepzoomImage)
    (idx_x idx_y : ℤ) (level : ℕ) : ℚ × ℚ :=
  (((idx_x : ℚ) * (d.tile_size : ℚ)) / d.level_scale level,
   ((idx_y : ℚ) * (d.tile_size : ℚ)) / d.level_scale level)

/-- A descriptor used by concrete test scenarios: only the geometry fields
matter for the coordinate claims. -/
def mkDescriptor (width height tile_size overlap : ℕ) : DeepzoomImage :=
  ⟨width, height, tile_size, overlap, [], 0, [], false⟩

/-- The 4000×3000 example descriptor of the spec's test scenario. -/
def d4000 : DeepzoomImage := mkDescriptor 4000 3000 254 1

/-! ## Tile cache

`self.tile_cache` is a Python `dict` keyed by `tile.key`, so it is an
insertion-ordered association list: assigning to an existing key replaces the
value in place (keeping the key's position), assigning a new key appends.
`_enforce_cache_limit` evicts the oldest entries (the front of the insertion
order) while the size exceeds `cache_limit`.  The cached value type is left
generic, as the dict's values are. -/

/-- An insertion-ordered cache, modelling the Python dict `self.tile_cache`. -/
abbrev Cache (α : Type) := List (TileKey × α)

/-- Python dict assignment `self.tile_cache[tile.key] = tile`. -/
def cacheInsert {α : Type} (c : Cache α) (k : TileKey) (v : α) : Cache α :=
  if k ∈ c.map Prod.fst then
    c.map (fun p => if p.1 = k then (k, v) else p)
  else
    c ++ [(k, v)]

/-- Python `_enforce_cache_limit`: delete the oldest `len - limit` entries while the
size exceeds the limit (eviction also drops the evicted tile's payload
reference, which only affects the removed entries). -/
def enforce_cache_limit {α : Type} (limit : ℕ) (c : Cache α) : Cache α :=
  c.drop (c.length - limit)

/-- Python `_add_tile_to_cache`: insert, then enforce the limit. -/
def add_tile_to_cache {α : Type} (limit : ℕ) (c : Cache α) (k : TileKey)
    (v : α) : Cache α :=
  enforce_cache_limit limit (cacheInsert c k v)

/-- Python `set_tile_cache_limit`: update the limit and immediately re-enforce it. -/
def set_tile_cache_limit {α : Type} (limit : ℕ) (c : Cache α) : Cache α :=
  enforce_cache_limit limit c

/-- Lookup `self.tile_cache.get(key)` / `key in self.tile_cache`. -/
def cacheLookup {α : Type} (c : Cache α) (k : TileKey) : Option α :=
  (c.find? (fun p => decide (p.1 = k))).map Prod.snd

/-! ## Worker pass over one generation's queue

`cache_tiles` fills `tile_queue` with the generation's payload-less tiles and
`worker_io_loop` drains it, spawning one `get_tile_data` task per dequeued tile.
`get_tile_data` performs Tile Source retrieval (`_load_tile_source`, which
raises `FileNotFoundError` / HTTP errors) and decode (`image_converter`), then
`_add_tile_to_cache`.  A raised task dies with its thread (isolated from its
siblings and reported by the threading machinery) without caching anything.
The pass is modelled sequentially: `fetch k = none` models a task whose
retrieval or decode raised; the model returns the final cache and the ordered
list of fetch attempts. -/

/-- One `get_tile_data` task for a payload-less tile: on success, convert and
insert into the cache; on a raised fetch/decode error, leave the cache and the
tile's payload untouched. -/
def process_tile {α : Type} (limit : ℕ) (fetch : TileKey → Option α)
    (c : Cache α) (k : TileKey) : Cache α :=
  match fetch k with
  | none => c
  | some v => add_tile_to_cache limit c k v

/-- The worker loop draining the queue of one generation: each queued tile is
fetched exactly once; the second component records the fetch attempts. -/
def worker_io_loop {α : Type} (limit : ℕ) (fetch : TileKey → Option α) :
    Cache α → List TileKey → Cache α × List TileKey
  | c, [] => (c, [])
  | c, k :: q =>
    let r := worker_io_loop limit fetch (process_tile limit fetch c k) q
    (r.1, k :: r.2)

/-- The successful fetches of a queue, in order, as cache entries. -/
def successPairs {α : Type} (fetch : TileKey → Option α) (q : List TileKey) :
    Cache α :=
  q.filterMap (fun k => (fetch k).map (fun v => (k, v)))

/-! ## Overlapping generations

Operational model of the scheduler state shared between `get_visible_tiles`,
`cache_tiles` and `worker_io_loop`.  Tile objects are mutable and shared (the queue
holds object references, the cache holds the object inserted by the completed
fetch), so they live in an explicit heap addressed by index.  Interleavings of
the render path and the worker are modelled as sequences of three atomic
actions: issuing a generation, one worker dequeue (which dispatches
`get_tile_data` for a payload-less tile), and completion of an in-flight
fetch. -/

/-- Shared scheduler state: the tile-object heap, `self.tile_cache` (storing
heap indices for the tile objects it owns), `self.tile_queue`, and the ordered
log of dispatched fetches. -/
structure SchedState (α : Type) where
  heap : List (TileKey × Option α)
  tcache : Cache ℕ
  tileQueue : List ℕ
  fetchLog : List TileKey

/-- A freshly opened image: empty cache, empty queue. -/
def emptySched (α : Type) : SchedState α :=
  ⟨[], [], [], []⟩

/-- A tile object's payload (`tile.data`), `none` for a dangling index. -/
def tileData {α : Type} (s : SchedState α) (id : ℕ) : Option α :=
  match s.heap[id]? with
  | some p => p.2
  | none => none

/-- Step of `get_visible_tiles` materialising one desired key —
`self.tile_cache.get(key, DeepzoomTile(...))`: the cached tile object if the
key is resident, else a fresh `DeepzoomTile` with payload `None` — followed by
`cache_tiles` queueing the tile iff its payload is absent. -/
def issueTile {α : Type} (s : SchedState α) (k : TileKey) : SchedState α :=
  match cacheLookup s.tcache k with
  | some id =>
      if (tileData s id).isNone then
        { s with tileQueue := s.tileQueue ++ [id] }
      else s
  | none =>
      { s with heap := s.heap ++ [(k, none)],
               tileQueue := s.tileQueue ++ [s.heap.length] }

/-- One generation (`cache_tiles`): purge `tile_queue` of the prior
generation's not-yet-dequeued requests, then queue the desired keys'
payload-less tiles in order. -/
def issueGeneration {α : Type} (s : SchedState α) (keys : List TileKey) :
    SchedState α :=
  keys.foldl issueTile { s with tileQueue := [] }

/-- One worker dequeue: pop the front tile; if its payload is still
absent (`tile.data is None`), dispatch a `get_tile_data` fetch for it,
recorded in `fetchLog`; the fetch is now in flight. -/
def dispatchOne {α : Type} (s : SchedState α) : SchedState α :=
  match s.tileQueue with
  | [] => s
  | id :: rest =>
    match s.heap[id]? with
    | none => { s with tileQueue := rest }
    | some p =>
      if p.2.isNone then
        { s with tileQueue := rest, fetchLog := s.fetchLog ++ [p.1] }
      else
        { s with tileQueue := rest }

/-- Completion of an in-flight `get_tile_data`: set the tile object's payload
(`tile.data = ...`) and `_add_tile_to_cache` the object. -/
def completeFetch {α : Type} (limit : ℕ) (s : SchedState α) (id : ℕ) (v : α) :
    SchedState α :=
  match s.heap[id]? with
  | none => s
  | some p =>
    { s with heap := s.heap.set id (p.1, some v),
             tcache := add_tile_to_cache limit s.tcache p.1 id }

/-! ## Visible-tile enumeration

`get_visible_tiles(x, y, width, height, display_width, display_height)`
computes a display scale, chooses the level band, and enumerates the clamped
tile-index rectangle per level.  `choose_level` contains the single
transcendental operation of the source (`math.log2`), hence lives over `ℝ`. -/

/-- Python `range(lo, hi + 1)` over integers, as used for the row/column
loops of `get_visible_tiles`. -/
def intRange (lo hi : ℤ) : List ℤ :=
  (List.range (hi + 1 - lo).toNat).map (fun i => lo + i)

/-- The scale computed at the top of `get_visible_tiles`:
`((display_width / width) + (display_height / height)) / 2` when both display
extents are given, else `1.0`. -/
def display_scale (width height : ℚ) (dw dh : Option ℚ) : ℚ :=
  match dw, dh with
  | some w, some h => ((w / width) + (h / height)) / 2
  | _, _ => 1

/-- Python `choose_level(scale)`:
`ceil(max_level + level_threshold + log2(scale))` clamped to
`[0, max_level]`. -/
noncomputable def DeepzoomImage.choose_level (d : DeepzoomImage) (scale : ℚ) :
    ℤ :=
  max 0 (min (d.max_level : ℤ)
    ⌈(d.max_level : ℝ) + (d.level_threshold : ℝ) + Real.logb 2 (scale : ℝ)⌉)

/-- The level band of `get_visible_tiles`:
`levels = range(max(0, level_stop - 2), level_stop + 1)` with
`level_stop = choose_level(scale)` (always non-negative after clamping). -/
noncomputable def DeepzoomImage.levels_list (d : DeepzoomImage) (scale : ℚ) :
    List ℕ :=
  let stop := (d.choose_level scale).toNat
  let start := stop - 2
  List.range' start (stop + 1 - start)

/-- The per-level body of `get_visible_tiles`: tile indices of the view
rectangle's corners, clamped to `[0, max_tile_index]`, then all
`(level, row, col)` keys of that rectangle, row-major. -/
def DeepzoomImage.tiles_for_level (d : DeepzoomImage) (x y width height : ℚ)
    (level : ℕ) : List TileKey :=
  let mc := d.max_tile_index level
  let i0 := d.image_coords_to_tile_index x y level
  let i1 := d.image_coords_to_tile_index (x + width) (y + height) level
  let row0 := max 0 i0.2
  let col0 := max 0 i0.1
  let row1 := min mc.2 i1.2
  let col1 := min mc.1 i1.1
  (intRange row0 row1).flatMap (fun row =>
    (intRange col0 col1).map (fun col => (level, row, col)))

/-- Python `get_visible_tiles`, returning the ordered list of keys of the tiles it
collects (each tile is the cached object when resident, else a fresh one;
only the keys matter here). -/
noncomputable def DeepzoomImage.get_visible_tiles (d : DeepzoomImage)
    (x y width height : ℚ) (dw dh : Option ℚ) : List TileKey :=
  (d.levels_list (display_scale width height dw dh)).flatMap
    (d.tiles_for_level x y width height)

/-- The 1000×1000, tileSize-256 pyramid of the spec's visibility scenario. -/
def d1000 : DeepzoomImage := mkDescriptor 1000 1000 256 0

/-! ## Tile-path addressing

`_get_tile_source_path` (image.py) and the sample-pyramid generator
`create_sample` (generation.py) must agree on the on-disk/on-wire layout
`{base-without-extension}_files/{level}/{col}_{row}.{format}`.  Strings are
modelled as `List Char`; `os.path.join` uses the POSIX separator `/`. -/

/-- Python `str.rfind(ch)`: index of the last occurrence, `none` for `-1`. -/
def rfindIdx (ch : Char) : List Char → Option ℕ
  | [] => none
  | c :: rest =>
    match rfindIdx ch rest with
    | some i => some (i + 1)
    | none => if c = ch then some 0 else none

/-- The URL branch's `base[: base.rfind(".")]`: up to the last `'.'`, or —
Python's `rfind` returning `-1` — all but the last character when there is
none. -/
def takeToLastDot (s : List Char) : List Char :=
  match rfindIdx '.' s with
  | some i => s.take i
  | none => s.dropLast

/-- POSIX `os.path.splitext(p)[0]` (CPython): split at the last `'.'` when it
comes after the last `'/'` and some strictly earlier character of the
basename is not a `'.'`; otherwise return `p` unchanged. -/
def splitextRoot (p : List Char) : List Char :=
  let sepIndex : ℤ := match rfindIdx '/' p with | some i => (i : ℤ) | none => -1
  let dotIndex : ℤ := match rfindIdx '.' p with | some i => (i : ℤ) | none => -1
  if sepIndex < dotIndex ∧
      ∃ i ∈ List.range p.length,
        sepIndex < (i : ℤ) ∧ (i : ℤ) < dotIndex ∧ p[i]? ≠ some '.' then
    p.take dotIndex.toNat
  else p

/-- Python `_get_tile_source_path(level, col, row)`: strip the source's extension
(an `rfind` slice for URLs, `os.path.splitext` for local paths), then
`{base}_files/{level}/{col}_{row}.{format}` (with `os.path.join` inserting
the POSIX separator on the local side). -/
def DeepzoomImage.get_tile_source_path (d : DeepzoomImage)
    (level col row : ℕ) : List Char :=
  if d.is_url then
    takeToLastDot d.source ++ "_files/".data ++ (Nat.repr level).data
      ++ "/".data ++ (Nat.repr col).data ++ "_".data ++ (Nat.repr row).data
      ++ ".".data ++ d.image_format
  else
    splitextRoot d.source ++ "_files".data ++ "/".data ++ (Nat.repr level).data
      ++ "/".data ++ (Nat.repr col).data ++ "_".data ++ (Nat.repr row).data
      ++ ".".data ++ d.image_format

/-- The tile path written by `create_sample` (generation.py):
`base = splitext(filename)[0]`, `files_dir = f"{base}_files"`,
`level_dir = join(files_dir, str(level))`,
`tile_path = join(level_dir, f"{col}_{row}.{format}")`. -/
def create_sample_tile_path (filename image_format : List Char)
    (level col row : ℕ) : List Char :=
  splitextRoot filename ++ "_files".data ++ "/".data ++ (Nat.repr level).data
    ++ "/".data ++ (Nat.repr col).data ++ "_".data ++ (Nat.repr row).data
    ++ ".".data ++ image_format

/-- The layout the spec mandates:
`{base-without-extension}_files/{level}/{col}_{row}.{format}`. -/
def dzi_tile_layout (base image_format : List Char)
    (level col row : ℕ) : List Char :=
  base ++ "_files/".data ++ (Nat.repr level).data ++ "/".data
    ++ (Nat.repr col).data ++ "_".data ++ (Nat.repr row).data ++ ".".data
    ++ image_format

/-! The theorems: claims C1–C10 with their supporting lemmas. -/

lemma d4000_max_level : d4000.max_level = 12 := by
  norm_num [d4000, mkDescriptor, DeepzoomImage.max_level, calc_max_level, Nat.clog]

lemma d4000_max_tile_index_12 : d4000.max_tile_index 12 = (15, 11) := by
  simp only [DeepzoomImage.max_tile_index, DeepzoomImage.level_scale, d4000_max_level]
  norm_num [d4000, mkDescriptor]

/-- The fact `1 < 2` in `ℕ`, the base-positivity side condition of `Nat.clog` lemmas. -/
lemma one_lt_two_nat : (1 : ℕ) < 2 := by norm_num

/-- The image width never exceeds `2 ^ max_level`. -/
lemma width_le_pow_max_level (d : DeepzoomImage) :
    d.width ≤ 2 ^ d.max_level :=
  le_trans (le_max_left _ _) (Nat.le_pow_clog one_lt_two_nat _)

/-- The image height never exceeds `2 ^ max_level`. -/
lemma height_le_pow_max_level (d : DeepzoomImage) :
    d.height ≤ 2 ^ d.max_level :=
  le_trans (le_max_right _ _) (Nat.le_pow_clog one_lt_two_nat _)

/-- One axis of `max_tile_index` at level 0 is `0`: the scaled extent fits a
single tile. -/
lemma floor_level_zero_eq_zero (d : DeepzoomImage) (n : ℕ)
    (hn : 1 ≤ n) (hle : n ≤ 2 ^ d.max_level) (ht : 1 ≤ d.tile_size) :
    ⌊((n : ℚ) - 1) * d.level_scale 0 / (d.tile_size : ℚ)⌋ = 0 := by
  have ht0 : (0 : ℚ) < (d.tile_size : ℚ) := by exact_mod_cast ht
  have hpow : (0 : ℚ) < 2 ^ (d.max_level : ℤ) := by positivity
  have hn1 : (1 : ℚ) ≤ (n : ℚ) := by exact_mod_cast hn
  have hscale : d.level_scale 0 = ((2 : ℚ) ^ (d.max_level : ℤ))⁻¹ := by
    simp [DeepzoomImage.level_scale, zpow_neg]
  rw [hscale, Int.floor_eq_zero_iff]
  constructor
  · apply div_nonneg _ ht0.le
    exact mul_nonneg (by linarith) (by positivity)
  · rw [div_lt_one ht0]
    have hcast : (n : ℚ) ≤ 2 ^ (d.max_level : ℤ) := by
      have : (n : ℚ) ≤ ((2 ^ d.max_level : ℕ) : ℚ) := by exact_mod_cast hle
      simpa [zpow_natCast] using this
    rw [mul_inv_lt_iff₀' hpow]
    calc (n : ℚ) - 1 < (n : ℚ) := by linarith
    _ ≤ 2 ^ (d.max_level : ℤ) := hcast
    _ ≤ 2 ^ (d.max_level : ℤ) * (d.tile_size : ℚ) :=
      le_mul_of_one_le_right hpow.le (by exact_mod_cast ht)

/-- C1. For every level `L ≤ maxLevel`, `max_tile_index L` is the pair of
floors `⌊(extent-1)·2^(L-maxLevel)/tileSize⌋`; at the 4000×3000, tileSize 254
descriptor the derived `maxLevel` is 12 and `max_tile_index 12 = (15, 11)`;
and for every positive width, height and tileSize, `max_tile_index 0 = (0, 0)`
(level 0 is a single tile). -/
theorem max_tile_index_spec (d : DeepzoomImage) (L : ℕ) (hL : L ≤ d.max_level)
    (hw : 1 ≤ d.width) (hh : 1 ≤ d.height) (ht : 1 ≤ d.tile_size) :
    d.max_tile_index L =
      (⌊((d.width : ℚ) - 1) * 2 ^ ((L : ℤ) - (d.max_level : ℤ)) / (d.tile_size : ℚ)⌋,
       ⌊((d.height : ℚ) - 1) * 2 ^ ((L : ℤ) - (d.max_level : ℤ)) / (d.tile_size : ℚ)⌋) ∧
    d.max_tile_index 0 = (0, 0) ∧
    (d4000.max_level = 12 ∧ d4000.max_tile_index 12 = (15, 11)) := by
  refine ⟨rfl, ?_, d4000_max_level, d4000_max_tile_index_12⟩
  unfold DeepzoomImage.max_tile_index
  simp only [Nat.cast_zero]
  rw [floor_level_zero_eq_zero d d.width hw (width_le_pow_max_level d) ht,
    floor_level_zero_eq_zero d d.height hh (height_le_pow_max_level d) ht]

/-- Witness for `max_tile_index_spec` at the concrete 4000×3000 descriptor. -/
theorem max_tile_index_spec_witness :
    (12 ≤ d4000.max_level ∧ 1 ≤ d4000.width ∧ 1 ≤ d4000.height ∧
      1 ≤ d4000.tile_size) ∧
    (d4000.max_tile_index 12 =
      (⌊((d4000.width : ℚ) - 1) * 2 ^ ((12 : ℤ) - (d4000.max_level : ℤ)) / (d4000.tile_size : ℚ)⌋,
       ⌊((d4000.height : ℚ) - 1) * 2 ^ ((12 : ℤ) - (d4000.max_level : ℤ)) / (d4000.tile_size : ℚ)⌋) ∧
     d4000.max_tile_index 0 = (0, 0) ∧
     (d4000.max_level = 12 ∧ d4000.max_tile_index 12 = (15, 11))) :=
  ⟨⟨le_of_eq d4000_max_level.symm, by decide, by decide, by decide⟩,
    max_tile_index_spec d4000 12 (le_of_eq d4000_max_level.symm)
      (by decide) (by decide) (by decide)⟩

/-- C7. For every descriptor with positive width and height, the derived
maximum level equals `⌈log₂ (max width height)⌉`, `level_scale maxLevel = 1`,
and `level_scale 0 = 2 ^ (-maxLevel)`. -/
theorem max_level_ceil_logb (d : DeepzoomImage)
    (hw : 1 ≤ d.width) (hh : 1 ≤ d.height) :
    (d.max_level : ℤ) = ⌈Real.logb 2 ((max d.width d.height : ℕ) : ℝ)⌉ ∧
    d.level_scale (d.max_level : ℤ) = 1 ∧
    d.level_scale 0 = 2 ^ (-(d.max_level : ℤ)) := by
  refine ⟨?_, ?_, ?_⟩
  · rw [show (2 : ℝ) = ((2 : ℕ) : ℝ) by norm_num,
      Real.ceil_logb_natCast (Nat.cast_nonneg _), Int.clog_natCast]
    rfl
  · simp [DeepzoomImage.level_scale]
  · simp [DeepzoomImage.level_scale]

/-- Witness for `max_level_ceil_logb` at the 4000×3000 descriptor. -/
theorem max_level_ceil_logb_witness :
    (1 ≤ d4000.width ∧ 1 ≤ d4000.height) ∧
    ((d4000.max_level : ℤ) = ⌈Real.logb 2 ((max d4000.width d4000.height : ℕ) : ℝ)⌉ ∧
     d4000.level_scale (d4000.max_level : ℤ) = 1 ∧
     d4000.level_scale 0 = 2 ^ (-(d4000.max_level : ℤ))) :=
  ⟨⟨by decide, by decide⟩, max_level_ceil_logb d4000 (by decide) (by decide)⟩

/-- C5. For every level `L ≤ maxLevel` and tile index within bounds,
`image_coords_to_tile_index` applied to `tile_index_to_image_coords` is the
identity (round-trip). -/
theorem tile_index_roundtrip (d : DeepzoomImage) (L : ℕ) (col row : ℤ)
    (hL : L ≤ d.max_level) (ht : 1 ≤ d.tile_size)
    (hc0 : 0 ≤ col) (hc1 : col ≤ (d.max_tile_index L).1)
    (hr0 : 0 ≤ row) (hr1 : row ≤ (d.max_tile_index L).2) :
    d.image_coords_to_tile_index
      (d.tile_index_to_image_coords col row L).1
      (d.tile_index_to_image_coords col row L).2 L = (col, row) := by
  have hs : d.level_scale (L : ℤ) ≠ 0 := by
    unfold DeepzoomImage.level_scale
    exact zpow_ne_zero _ two_ne_zero
  have ht0 : (d.tile_size : ℚ) ≠ 0 := by
    have h1 : (0 : ℚ) < (d.tile_size : ℚ) := by
      exact_mod_cast lt_of_lt_of_le Nat.zero_lt_one ht
    exact h1.ne'
  simp only [DeepzoomImage.image_coords_to_tile_index,
    DeepzoomImage.tile_index_to_image_coords]
  have hcol : (col : ℚ) * (d.tile_size : ℚ) / d.level_scale (L : ℤ) *
      d.level_scale (L : ℤ) / (d.tile_size : ℚ) = (col : ℚ) := by
    field_simp
  have hrow : (row : ℚ) * (d.tile_size : ℚ) / d.level_scale (L : ℤ) *
      d.level_scale (L : ℤ) / (d.tile_size : ℚ) = (row : ℚ) := by
    field_simp
  rw [hcol, hrow, Int.floor_intCast, Int.floor_intCast]

/-- Witness for `tile_index_roundtrip`: level 12, tile (15, 11) of the
4000×3000 descriptor. -/
theorem tile_index_roundtrip_witness :
    (12 ≤ d4000.max_level ∧ 1 ≤ d4000.tile_size ∧
      (0 : ℤ) ≤ 15 ∧ (15 : ℤ) ≤ (d4000.max_tile_index 12).1 ∧
      (0 : ℤ) ≤ 11 ∧ (11 : ℤ) ≤ (d4000.max_tile_index 12).2) ∧
    d4000.image_coords_to_tile_index
      (d4000.tile_index_to_image_coords 15 11 12).1
      (d4000.tile_index_to_image_coords 15 11 12).2 12 = (15, 11) :=
  ⟨⟨le_of_eq d4000_max_level.symm, by decide, by decide,
      le_of_eq (congrArg Prod.fst d4000_max_tile_index_12).symm,
      by decide,
      le_of_eq (congrArg Prod.snd d4000_max_tile_index_12).symm⟩,
    tile_index_roundtrip d4000 12 15 11 (le_of_eq d4000_max_level.symm) (by decide)
      (by decide)
      (le_of_eq (congrArg Prod.fst d4000_max_tile_index_12).symm)
      (by decide)
      (le_of_eq (congrArg Prod.snd d4000_max_tile_index_12).symm)⟩

lemma enforce_cache_limit_length {α : Type} (limit : ℕ) (c : Cache α) :
    (enforce_cache_limit limit c).length ≤ limit := by
  simp only [enforce_cache_limit, List.length_drop]
  omega

lemma enforce_cache_limit_of_le {α : Type} {limit : ℕ} {c : Cache α}
    (h : c.length ≤ limit) : enforce_cache_limit limit c = c := by
  simp only [enforce_cache_limit, Nat.sub_eq_zero_of_le h, List.drop_zero]

/-- Enforcing, appending, then enforcing again is the same as enforcing the
whole append: eviction only ever drops the oldest entries. -/
lemma enforce_cache_limit_append {α : Type} (limit : ℕ) (a b : Cache α) :
    enforce_cache_limit limit (enforce_cache_limit limit a ++ b)
      = enforce_cache_limit limit (a ++ b) := by
  rcases le_or_lt a.length limit with h | h
  · rw [enforce_cache_limit_of_le h]
  · unfold enforce_cache_limit
    rw [← List.drop_append_of_le_length (by omega), List.drop_drop]
    congr 1
    simp only [List.length_drop, List.length_append]
    omega

/-- Inserting a key not yet present appends it. -/
lemma cacheInsert_fresh {α : Type} {c : Cache α} {k : TileKey} {v : α}
    (h : k ∉ c.map Prod.fst) : cacheInsert c k v = c ++ [(k, v)] := by
  simp only [cacheInsert, if_neg h]

/-- Folding `_add_tile_to_cache` over pairwise-distinct fresh keys appends
them all and then enforces the limit once. -/
lemma foldl_add_tile_fresh {α : Type} (limit : ℕ) :
    ∀ (ps : List (TileKey × α)) (c : Cache α), c.length ≤ limit →
      (ps.map Prod.fst).Nodup →
      (∀ k ∈ ps.map Prod.fst, k ∉ c.map Prod.fst) →
      ps.foldl (fun acc p => add_tile_to_cache limit acc p.1 p.2) c
        = enforce_cache_limit limit (c ++ ps)
  | [], c, hc, _, _ => by
    rw [List.append_nil, List.foldl_nil, enforce_cache_limit_of_le hc]
  | p :: rest, c, hc, hnd, hfresh => by
    have hp : p.1 ∉ c.map Prod.fst := hfresh p.1 (by simp)
    have hstep : add_tile_to_cache limit c p.1 p.2
        = enforce_cache_limit limit (c ++ [p]) := by
      unfold add_tile_to_cache
      rw [cacheInsert_fresh hp]
    have hsub : ∀ k ∈ rest.map Prod.fst,
        k ∉ (enforce_cache_limit limit (c ++ [p])).map Prod.fst := by
      intro k hk hmem
      have hsubl : (enforce_cache_limit limit (c ++ [p])).Sublist (c ++ [p]) :=
        List.drop_sublist _ _
      have : k ∈ (c ++ [p]).map Prod.fst := (hsubl.map Prod.fst).subset hmem
      rw [List.map_append] at this
      rcases List.mem_append.mp this with h1 | h1
      · exact hfresh k (by simp [hk]) h1
      · simp only [List.map_cons, List.map_nil, List.mem_singleton] at h1
        subst h1
        simp only [List.map_cons, List.nodup_cons] at hnd
        exact hnd.1 hk
    have hnd' : (rest.map Prod.fst).Nodup := by
      simp only [List.map_cons, List.nodup_cons] at hnd
      exact hnd.2
    calc (p :: rest).foldl (fun acc q => add_tile_to_cache limit acc q.1 q.2) c
        = rest.foldl (fun acc q => add_tile_to_cache limit acc q.1 q.2)
            (add_tile_to_cache limit c p.1 p.2) := rfl
      _ = rest.foldl (fun acc q => add_tile_to_cache limit acc q.1 q.2)
            (enforce_cache_limit limit (c ++ [p])) := by rw [hstep]
      _ = enforce_cache_limit limit (enforce_cache_limit limit (c ++ [p]) ++ rest) :=
          foldl_add_tile_fresh limit rest _ (enforce_cache_limit_length _ _) hnd' hsub
      _ = enforce_cache_limit limit ((c ++ [p]) ++ rest) :=
          enforce_cache_limit_append limit _ _
      _ = enforce_cache_limit limit (c ++ p :: rest) := by
          rw [List.append_assoc]
          rfl

/-- C2. Inserting `n+1` distinct keys into an initially empty cache with
capacity `n` leaves exactly the `n` most recent entries, the earliest-inserted
key being the one evicted (FIFO); and after every mutation (insert with its
eviction, or a capacity change) the number of entries is at most the limit. -/
theorem cache_fifo_eviction {α : Type} (n : ℕ) (hn : 1 ≤ n)
    (ps : List (TileKey × α)) (hlen : ps.length = n + 1)
    (hnd : (ps.map Prod.fst).Nodup) :
    ps.foldl (fun acc p => add_tile_to_cache n acc p.1 p.2) [] = ps.tail ∧
    (ps.foldl (fun acc p => add_tile_to_cache n acc p.1 p.2) []).length = n ∧
    (∀ (limit : ℕ) (c : Cache α) (k : TileKey) (v : α),
        (add_tile_to_cache limit c k v).length ≤ limit ∧
        (set_tile_cache_limit limit c).length ≤ limit) := by
  have hfold : ps.foldl (fun acc p => add_tile_to_cache n acc p.1 p.2) [] = ps.tail := by
    rw [foldl_add_tile_fresh n ps [] (by simp) hnd (by simp), List.nil_append]
    unfold enforce_cache_limit
    have h1 : ps.length - n = 1 := by omega
    rw [h1, List.drop_one]
  refine ⟨hfold, ?_, ?_⟩
  · rw [hfold, List.length_tail, hlen]
    omega
  · intro limit c k v
    exact ⟨enforce_cache_limit_length _ _, enforce_cache_limit_length _ _⟩

/-- Witness for `cache_fifo_eviction`: capacity 3, four sequential inserts,
the first key is evicted. -/
theorem cache_fifo_eviction_witness :
    ((1 : ℕ) ≤ 3 ∧
      ([((0, 0, 0), 10), ((0, 0, 1), 11), ((0, 0, 2), 12), ((0, 0, 3), 13)] :
        List (TileKey × ℕ)).length = 3 + 1 ∧
      (([((0, 0, 0), 10), ((0, 0, 1), 11), ((0, 0, 2), 12), ((0, 0, 3), 13)] :
        List (TileKey × ℕ)).map Prod.fst).Nodup) ∧
    (([((0, 0, 0), 10), ((0, 0, 1), 11), ((0, 0, 2), 12), ((0, 0, 3), 13)] :
        List (TileKey × ℕ)).foldl (fun acc p => add_tile_to_cache 3 acc p.1 p.2) []
      = ([((0, 0, 0), 10), ((0, 0, 1), 11), ((0, 0, 2), 12), ((0, 0, 3), 13)] :
        List (TileKey × ℕ)).tail ∧
     (([((0, 0, 0), 10), ((0, 0, 1), 11), ((0, 0, 2), 12), ((0, 0, 3), 13)] :
        List (TileKey × ℕ)).foldl (fun acc p => add_tile_to_cache 3 acc p.1 p.2) []).length = 3 ∧
     (∀ (limit : ℕ) (c : Cache ℕ) (k : TileKey) (v : ℕ),
        (add_tile_to_cache limit c k v).length ≤ limit ∧
        (set_tile_cache_limit limit c).length ≤ limit)) :=
  ⟨⟨by decide, by decide, by decide⟩,
    cache_fifo_eviction 3 (by decide) _ (by decide) (by decide)⟩

/-- C9. Re-inserting a key already resident in a size-respecting cache
keeps the occupancy count, evicts nothing, and leaves the key sequence (the
eviction order) unchanged. -/
theorem cache_reinsert_idempotent {α : Type} (limit : ℕ) (c : Cache α)
    (k : TileKey) (v : α) (hk : k ∈ c.map Prod.fst) (hc : c.length ≤ limit) :
    (add_tile_to_cache limit c k v).map Prod.fst = c.map Prod.fst ∧
    (add_tile_to_cache limit c k v).length = c.length := by
  have hins : (cacheInsert c k v).map Prod.fst = c.map Prod.fst := by
    simp only [cacheInsert, if_pos hk, List.map_map]
    apply List.map_congr_left
    intro p _
    by_cases h : p.1 = k
    · simp [Function.comp, if_pos h, h]
    · simp [Function.comp, if_neg h]
  have hlen : (cacheInsert c k v).length = c.length := by
    simp only [cacheInsert, if_pos hk, List.length_map]
  have henf : add_tile_to_cache limit c k v = cacheInsert c k v := by
    unfold add_tile_to_cache
    exact enforce_cache_limit_of_le (by rw [hlen]; exact hc)
  rw [henf, hins, hlen]
  exact ⟨rfl, rfl⟩

/-- Witness for `cache_reinsert_idempotent`: re-inserting the key `(0,0,1)`
into a full two-entry cache of capacity 2. -/
theorem cache_reinsert_idempotent_witness :
    ((0, 0, 1) ∈ ([((0, 0, 0), 10), ((0, 0, 1), 11)] :
        Cache ℕ).map Prod.fst ∧
      ([((0, 0, 0), 10), ((0, 0, 1), 11)] : Cache ℕ).length ≤ 2) ∧
    ((add_tile_to_cache 2 ([((0, 0, 0), 10), ((0, 0, 1), 11)] : Cache ℕ)
        (0, 0, 1) 99).map Prod.fst
      = ([((0, 0, 0), 10), ((0, 0, 1), 11)] : Cache ℕ).map Prod.fst ∧
     (add_tile_to_cache 2 ([((0, 0, 0), 10), ((0, 0, 1), 11)] : Cache ℕ)
        (0, 0, 1) 99).length
      = ([((0, 0, 0), 10), ((0, 0, 1), 11)] : Cache ℕ).length) :=
  ⟨⟨by decide, by decide⟩,
    cache_reinsert_idempotent 2 _ (0, 0, 1) 99 (by decide) (by decide)⟩

lemma worker_io_loop_snd {α : Type} (limit : ℕ) (fetch : TileKey → Option α) :
    ∀ (c : Cache α) (q : List TileKey), (worker_io_loop limit fetch c q).2 = q
  | _, [] => rfl
  | c, k :: q => by
    simp only [worker_io_loop]
    rw [worker_io_loop_snd limit fetch (process_tile limit fetch c k) q]

lemma worker_io_loop_fst {α : Type} (limit : ℕ) (fetch : TileKey → Option α) :
    ∀ (c : Cache α) (q : List TileKey),
      (worker_io_loop limit fetch c q).1 = q.foldl (process_tile limit fetch) c
  | _, [] => rfl
  | c, k :: q => by
    simp only [worker_io_loop, List.foldl_cons]
    exact worker_io_loop_fst limit fetch (process_tile limit fetch c k) q

lemma foldl_process_eq_foldl_add {α : Type} (limit : ℕ)
    (fetch : TileKey → Option α) :
    ∀ (q : List TileKey) (c : Cache α),
      q.foldl (process_tile limit fetch) c
        = (successPairs fetch q).foldl
            (fun acc p => add_tile_to_cache limit acc p.1 p.2) c
  | [], _ => rfl
  | k :: q, c => by
    simp only [List.foldl_cons, successPairs, List.filterMap_cons]
    cases hfk : fetch k with
    | none =>
        simp only [Option.map_none', process_tile, hfk]
        exact foldl_process_eq_foldl_add limit fetch q c
    | some v =>
        simp only [Option.map_some', List.foldl_cons, process_tile, hfk]
        exact foldl_process_eq_foldl_add limit fetch q _

lemma successPairs_keys_sublist {α : Type} (fetch : TileKey → Option α) :
    ∀ q : List TileKey, ((successPairs fetch q).map Prod.fst).Sublist q
  | [] => List.Sublist.refl _
  | k :: q => by
    simp only [successPairs, List.filterMap_cons]
    cases hfk : fetch k with
    | none =>
        exact (successPairs_keys_sublist fetch q).cons k
    | some v =>
        simp only [Option.map_some', List.map_cons]
        exact (successPairs_keys_sublist fetch q).cons₂ k

lemma mem_successPairs {α : Type} {fetch : TileKey → Option α}
    {q : List TileKey} {k : TileKey} {v : α} :
    (k, v) ∈ successPairs fetch q ↔ k ∈ q ∧ fetch k = some v := by
  simp only [successPairs, List.mem_filterMap, Option.map_eq_some']
  constructor
  · rintro ⟨a, ha, w, hw, heq⟩
    cases heq
    exact ⟨ha, hw⟩
  · rintro ⟨hk, hv⟩
    exact ⟨k, hk, v, hv, rfl⟩

/-- Looking up a key in a key-unique cache that holds `(k, v)` yields `v`. -/
lemma cacheLookup_of_mem {α : Type} :
    ∀ {c : Cache α} {k : TileKey} {v : α}, (c.map Prod.fst).Nodup →
      (k, v) ∈ c → cacheLookup c k = some v
  | [], _, _, _, hmem => absurd hmem (List.not_mem_nil _)
  | p :: c, k, v, hnd, hmem => by
    simp only [List.map_cons, List.nodup_cons] at hnd
    by_cases hpk : p.1 = k
    · have hpv : p = (k, v) := by
        rcases List.mem_cons.mp hmem with h | h
        · exact h.symm
        · exact absurd (hpk ▸ List.mem_map_of_mem Prod.fst h) hnd.1
      simp [cacheLookup, List.find?_cons, hpk, hpv]
    · have hmem' : (k, v) ∈ c := by
        rcases List.mem_cons.mp hmem with h | h
        · exact absurd (congrArg Prod.fst h.symm) hpk
        · exact h
      have := cacheLookup_of_mem hnd.2 hmem'
      simpa [cacheLookup, List.find?_cons, hpk] using this

/-- No entry of the cache has key `k` → lookup misses. -/
lemma cacheLookup_eq_none {α : Type} {c : Cache α} {k : TileKey}
    (h : ∀ p ∈ c, p.1 ≠ k) : cacheLookup c k = none := by
  simp only [cacheLookup, Option.map_eq_none']
  rw [List.find?_eq_none]
  intro p hp
  simpa using h p hp

/-- C4. If one tile of a generation's batch fails to fetch or decode, the
failure is confined to its own task: the failing key is attempted exactly once
(the recorded attempts are the batch itself, no retry), its payload stays
absent from the cache, and every other tile of the batch is fetched and
cached. -/
theorem worker_failure_isolation {α : Type} (limit : ℕ)
    (fetch : TileKey → Option α) (batch : List TileKey) (kf : TileKey)
    (hnd : batch.Nodup) (hlen : batch.length ≤ limit)
    (hkf : fetch kf = none)
    (hothers : ∀ k, k ≠ kf → (fetch k).isSome) :
    (worker_io_loop limit fetch [] batch).2 = batch ∧
    cacheLookup (worker_io_loop limit fetch [] batch).1 kf = none ∧
    (∀ k ∈ batch, k ≠ kf →
        ∃ v, fetch k = some v ∧
          cacheLookup (worker_io_loop limit fetch [] batch).1 k = some v) := by
  have hkeys : ((successPairs fetch batch).map Prod.fst).Sublist batch :=
    successPairs_keys_sublist fetch batch
  have hcache : (worker_io_loop limit fetch [] batch).1 = successPairs fetch batch := by
    rw [worker_io_loop_fst, foldl_process_eq_foldl_add,
      foldl_add_tile_fresh limit (successPairs fetch batch) [] (by simp)
        (hnd.sublist hkeys) (by simp), List.nil_append]
    exact enforce_cache_limit_of_le
      (le_trans (by simpa using hkeys.length_le) hlen)
  refine ⟨worker_io_loop_snd limit fetch [] batch, ?_, ?_⟩
  · rw [hcache]
    apply cacheLookup_eq_none
    intro p hp hpk
    have : fetch p.1 = some p.2 :=
      (mem_successPairs.mp (by rwa [← Prod.mk.eta (p := p)] at hp)).2
    rw [hpk, hkf] at this
    exact Option.noConfusion this
  · intro k hk hkne
    obtain ⟨v, hv⟩ := Option.isSome_iff_exists.mp (hothers k hkne)
    refine ⟨v, hv, ?_⟩
    rw [hcache]
    exact cacheLookup_of_mem (hnd.sublist hkeys)
      (mem_successPairs.mpr ⟨hk, hv⟩)

/-- Witness for `worker_failure_isolation`: a batch of five keys at level 0,
the middle key `(0,0,2)` failing, capacity 128 (the source default). -/
theorem worker_failure_isolation_witness :
    (([((0 : ℕ), (0 : ℤ), (0 : ℤ)), (0, 0, 1), (0, 0, 2), (0, 0, 3), (0, 0, 4)] :
        List TileKey).Nodup ∧
      ([((0 : ℕ), (0 : ℤ), (0 : ℤ)), (0, 0, 1), (0, 0, 2), (0, 0, 3), (0, 0, 4)] :
        List TileKey).length ≤ 128 ∧
      (fun k : TileKey => if k = (0, 0, 2) then (none : Option ℕ) else some 7)
        (0, 0, 2) = none ∧
      (∀ k : TileKey, k ≠ (0, 0, 2) →
        ((fun k : TileKey => if k = (0, 0, 2) then (none : Option ℕ) else some 7) k).isSome)) ∧
    ((worker_io_loop 128
        (fun k : TileKey => if k = (0, 0, 2) then (none : Option ℕ) else some 7) []
        [(0, 0, 0), (0, 0, 1), (0, 0, 2), (0, 0, 3), (0, 0, 4)]).2
      = [(0, 0, 0), (0, 0, 1), (0, 0, 2), (0, 0, 3), (0, 0, 4)] ∧
     cacheLookup (worker_io_loop 128
        (fun k : TileKey => if k = (0, 0, 2) then (none : Option ℕ) else some 7) []
        [(0, 0, 0), (0, 0, 1), (0, 0, 2), (0, 0, 3), (0, 0, 4)]).1 (0, 0, 2) = none ∧
     (∀ k ∈ ([(0, 0, 0), (0, 0, 1), (0, 0, 2), (0, 0, 3), (0, 0, 4)] : List TileKey),
        k ≠ (0, 0, 2) →
        ∃ v, (fun k : TileKey => if k = (0, 0, 2) then (none : Option ℕ) else some 7) k
              = some v ∧
          cacheLookup (worker_io_loop 128
            (fun k : TileKey => if k = (0, 0, 2) then (none : Option ℕ) else some 7) []
            [(0, 0, 0), (0, 0, 1), (0, 0, 2), (0, 0, 3), (0, 0, 4)]).1 k = some v)) :=
  ⟨⟨by decide, by decide, by decide, by
      intro k hk
      simp [if_neg hk]⟩,
    worker_failure_isolation 128 _ _ (0, 0, 2) (by decide) (by decide) (by decide)
      (by
        intro k hk
        simp [if_neg hk])⟩

/-- C6, counterexample. Requesting the same key in two overlapping
generations while the first generation's fetch is still in flight dispatches
TWO fetches, not one: the pending key is not yet in the cache, so the second
generation constructs a fresh payload-less tile object and the worker fetches
it again.  The claimed "exactly one fetch … in total" is false. -/
theorem sched_dedup_counterexample :
    ((dispatchOne (issueGeneration
        (dispatchOne (issueGeneration (emptySched ℕ) [(0, 0, 0)]))
        [(0, 0, 0)])).fetchLog.count ((0, 0, 0) : TileKey) = 2) ∧
    ¬ ((dispatchOne (issueGeneration
        (dispatchOne (issueGeneration (emptySched ℕ) [(0, 0, 0)]))
        [(0, 0, 0)])).fetchLog.count ((0, 0, 0) : TileKey) = 1) := by
  constructor
  · decide
  · decide

/-- C6, amended. Dedup is against the cache (and the purged queue) only:
(a) with the first generation's fetch already dispatched and still in flight,
the second generation dispatches a second fetch — one per generation, two in
total; (b) if the key is already cached with a payload when the second
generation is issued, it is not even queued and zero additional fetches are
dispatched; (c) if the first generation's request is still queued
(undispatched), the purge leaves exactly one fetch in total. -/
theorem sched_dedup_amended :
    ((dispatchOne (issueGeneration
        (dispatchOne (issueGeneration (emptySched ℕ) [(0, 0, 0)]))
        [(0, 0, 0)])).fetchLog = [(0, 0, 0), (0, 0, 0)]) ∧
    ((issueGeneration
        (completeFetch 128 (dispatchOne (issueGeneration (emptySched ℕ) [(0, 0, 0)]))
          0 7)
        [(0, 0, 0)]).tileQueue = [] ∧
     (dispatchOne (issueGeneration
        (completeFetch 128 (dispatchOne (issueGeneration (emptySched ℕ) [(0, 0, 0)]))
          0 7)
        [(0, 0, 0)])).fetchLog = [(0, 0, 0)]) ∧
    ((dispatchOne (dispatchOne (issueGeneration
        (issueGeneration (emptySched ℕ) [(0, 0, 0)]) [(0, 0, 0)]))).fetchLog
      = [(0, 0, 0)]) := by
  refine ⟨by decide, ⟨by decide, by decide⟩, by decide⟩

lemma d1000_max_level : d1000.max_level = 10 := by
  norm_num [d1000, mkDescriptor, DeepzoomImage.max_level, calc_max_level, Nat.clog]

lemma d1000_choose_level_one : d1000.choose_level 1 = 10 := by
  unfold DeepzoomImage.choose_level
  rw [d1000_max_level]
  have hth : d1000.level_threshold = 0 := rfl
  rw [hth]
  norm_num

lemma d1000_levels_list_one : d1000.levels_list 1 = [8, 9, 10] := by
  unfold DeepzoomImage.levels_list
  rw [d1000_choose_level_one]
  decide

lemma d1000_scale : display_scale 1000 1000 (some 1000) (some 1000) = 1 := by
  norm_num [display_scale]

lemma d1000_mti_8 : d1000.max_tile_index 8 = (0, 0) := by
  unfold DeepzoomImage.max_tile_index DeepzoomImage.level_scale
  rw [d1000_max_level]
  norm_num [d1000, mkDescriptor]

lemma d1000_mti_9 : d1000.max_tile_index 9 = (1, 1) := by
  unfold DeepzoomImage.max_tile_index DeepzoomImage.level_scale
  rw [d1000_max_level]
  norm_num [d1000, mkDescriptor]

lemma d1000_mti_10 : d1000.max_tile_index 10 = (3, 3) := by
  unfold DeepzoomImage.max_tile_index DeepzoomImage.level_scale
  rw [d1000_max_level]
  norm_num [d1000, mkDescriptor]

lemma d1000_tiles_8 : d1000.tiles_for_level 0 0 1000 1000 8 = [(8, 0, 0)] := by
  unfold DeepzoomImage.tiles_for_level DeepzoomImage.image_coords_to_tile_index
    DeepzoomImage.level_scale
  rw [d1000_mti_8, d1000_max_level]
  norm_num [d1000, mkDescriptor]
  decide

lemma d1000_tiles_9 : d1000.tiles_for_level 0 0 1000 1000 9
    = [(9, 0, 0), (9, 0, 1), (9, 1, 0), (9, 1, 1)] := by
  unfold DeepzoomImage.tiles_for_level DeepzoomImage.image_coords_to_tile_index
    DeepzoomImage.level_scale
  rw [d1000_mti_9, d1000_max_level]
  norm_num [d1000, mkDescriptor]
  decide

lemma d1000_tiles_10 : d1000.tiles_for_level 0 0 1000 1000 10
    = [(10, 0, 0), (10, 0, 1), (10, 0, 2), (10, 0, 3),
       (10, 1, 0), (10, 1, 1), (10, 1, 2), (10, 1, 3),
       (10, 2, 0), (10, 2, 1), (10, 2, 2), (10, 2, 3),
       (10, 3, 0), (10, 3, 1), (10, 3, 2), (10, 3, 3)] := by
  unfold DeepzoomImage.tiles_for_level DeepzoomImage.image_coords_to_tile_index
    DeepzoomImage.level_scale
  rw [d1000_mti_10, d1000_max_level]
  norm_num [d1000, mkDescriptor]
  decide

lemma d1000_visible : d1000.get_visible_tiles 0 0 1000 1000 (some 1000) (some 1000)
    = [(8, 0, 0),
       (9, 0, 0), (9, 0, 1), (9, 1, 0), (9, 1, 1),
       (10, 0, 0), (10, 0, 1), (10, 0, 2), (10, 0, 3),
       (10, 1, 0), (10, 1, 1), (10, 1, 2), (10, 1, 3),
       (10, 2, 0), (10, 2, 1), (10, 2, 2), (10, 2, 3),
       (10, 3, 0), (10, 3, 1), (10, 3, 2), (10, 3, 3)] := by
  unfold DeepzoomImage.get_visible_tiles
  rw [d1000_scale, d1000_levels_list_one]
  simp only [List.flatMap_cons, List.flatMap_nil,
    d1000_tiles_8, d1000_tiles_9, d1000_tiles_10]
  rfl

/-- C3. For the 1000×1000, tileSize-256 pyramid viewed in full at display
scale 1 (threshold 0): the returned keys span exactly the level band
`[levelStop - 2, levelStop] = [8, 10]`; the full 4×4 tile grid of
`maxLevel = 10` covering `(0,0)–(1000,1000)` is included; and every returned
key lies within `max_tile_index` of its level. -/
theorem visible_tiles_full_view :
    d1000.levels_list (display_scale 1000 1000 (some 1000) (some 1000))
      = [8, 9, 10] ∧
    (d1000.get_visible_tiles 0 0 1000 1000 (some 1000) (some 1000)).map
        Prod.fst ⊆ [8, 9, 10] ∧
    [8, 9, 10] ⊆ (d1000.get_visible_tiles 0 0 1000 1000 (some 1000)
        (some 1000)).map Prod.fst ∧
    (∀ r ∈ intRange 0 3, ∀ c ∈ intRange 0 3,
      ((10, r, c) : TileKey) ∈
        d1000.get_visible_tiles 0 0 1000 1000 (some 1000) (some 1000)) ∧
    (∀ k ∈ d1000.get_visible_tiles 0 0 1000 1000 (some 1000) (some 1000),
      0 ≤ k.2.2 ∧ k.2.2 ≤ (d1000.max_tile_index k.1).1 ∧
      0 ≤ k.2.1 ∧ k.2.1 ≤ (d1000.max_tile_index k.1).2) := by
  rw [d1000_scale]
  refine ⟨d1000_levels_list_one, ?_, ?_, ?_, ?_⟩
  · rw [d1000_visible]
    decide
  · rw [d1000_visible]
    decide
  · rw [d1000_visible]
    decide
  · intro k hk
    rw [d1000_visible] at hk
    fin_cases hk <;>
      simp [d1000_mti_8, d1000_mti_9, d1000_mti_10]

/-- C10. When either display extent is omitted, `get_visible_tiles`
silently uses display scale `1.0`, so the enumerated level band is the one of
scale 1 — with threshold 0 the finest levels `maxLevel - 2 … maxLevel` —
independently of the view rectangle. -/
theorem visible_tiles_default_scale (d : DeepzoomImage)
    (x y width height : ℚ) (dw dh : Option ℚ)
    (h : dw = none ∨ dh = none) :
    display_scale width height dw dh = 1 ∧
    d.get_visible_tiles x y width height dw dh
      = (d.levels_list 1).flatMap (d.tiles_for_level x y width height) ∧
    (d.level_threshold = 0 →
      ∀ l : ℕ, l ∈ d.levels_list 1 ↔
        (d.max_level - 2 ≤ l ∧ l ≤ d.max_level)) := by
  have hscale : display_scale width height dw dh = 1 := by
    rcases h with rfl | rfl
    · rfl
    · cases dw <;> rfl
  refine ⟨hscale, ?_, ?_⟩
  · unfold DeepzoomImage.get_visible_tiles
    rw [hscale]
  · intro hth l
    have hstop : d.choose_level 1 = (d.max_level : ℤ) := by
      unfold DeepzoomImage.choose_level
      rw [hth]
      norm_num
    unfold DeepzoomImage.levels_list
    rw [hstop, Int.toNat_natCast, List.mem_range'_1]
    omega

/-- Witness for `visible_tiles_default_scale`: the 4000×3000 descriptor with
`display_width` omitted. -/
theorem visible_tiles_default_scale_witness :
    ((none : Option ℚ) = none ∨ (some (5 : ℚ)) = none) ∧
    (display_scale 300 200 none (some 5) = 1 ∧
     d4000.get_visible_tiles 0 0 300 200 none (some 5)
       = (d4000.levels_list 1).flatMap (d4000.tiles_for_level 0 0 300 200) ∧
     (d4000.level_threshold = 0 →
       ∀ l : ℕ, l ∈ d4000.levels_list 1 ↔
         (d4000.max_level - 2 ≤ l ∧ l ≤ d4000.max_level))) :=
  ⟨Or.inl rfl,
    visible_tiles_default_scale d4000 0 0 300 200 none (some 5) (Or.inl rfl)⟩

lemma rfindIdx_eq_none {ch : Char} :
    ∀ {s : List Char}, ch ∉ s → rfindIdx ch s = none
  | [], _ => rfl
  | c :: rest, h => by
    have h1 : ch ∉ rest := fun hm => h (List.mem_cons_of_mem c hm)
    have h2 : ¬(c = ch) := fun he => h (he ▸ List.mem_cons_self c rest)
    simp [rfindIdx, rfindIdx_eq_none h1, h2]

lemma rfindIdx_append_last (ch : Char) {b : List Char} (hb : ch ∉ b) :
    ∀ a : List Char, rfindIdx ch (a ++ ch :: b) = some a.length
  | [] => by simp [rfindIdx, rfindIdx_eq_none hb]
  | c :: a => by
    rw [List.cons_append]
    simp [rfindIdx, rfindIdx_append_last ch hb a]

lemma rfindIdx_append_of_not_mem (ch : Char) {b : List Char} (hb : ch ∉ b) :
    ∀ a : List Char, rfindIdx ch (a ++ b) = rfindIdx ch a
  | [] => by simp [rfindIdx_eq_none hb, rfindIdx]
  | c :: a => by
    rw [List.cons_append]
    simp [rfindIdx, rfindIdx_append_of_not_mem ch hb a]

lemma rfindIdx_spec (ch : Char) :
    ∀ {s : List Char} {i : ℕ}, rfindIdx ch s = some i →
      i < s.length ∧ s[i]? = some ch
  | [], i, h => by simp [rfindIdx] at h
  | c :: rest, i, h => by
    rw [rfindIdx] at h
    cases hr : rfindIdx ch rest with
    | some j =>
        rw [hr] at h
        obtain rfl : j + 1 = i := Option.some.injEq .. ▸ h
        obtain ⟨hj, hget⟩ := rfindIdx_spec ch hr
        exact ⟨by simpa using Nat.succ_lt_succ hj, by simpa using hget⟩
    | none =>
        rw [hr] at h
        by_cases hc : c = ch
        · rw [if_pos hc] at h
          obtain rfl : 0 = i := Option.some.injEq .. ▸ h
          exact ⟨by simp, by simp [hc]⟩
        · rw [if_neg hc] at h
          exact Option.noConfusion h

lemma takeToLastDot_concat {stem ext : List Char} (hdot : '.' ∉ ext) :
    takeToLastDot (stem ++ '.' :: ext) = stem := by
  unfold takeToLastDot
  rw [rfindIdx_append_last '.' hdot stem]
  exact List.take_left stem _

lemma splitextRoot_concat {stem ext : List Char}
    (hdot : '.' ∉ ext) (hslash : '/' ∉ ext) (hne : stem ≠ [])
    (hldot : stem.getLast? ≠ some '.') (hlslash : stem.getLast? ≠ some '/') :
    splitextRoot (stem ++ '.' :: ext) = stem := by
  have hlen1 : 1 ≤ stem.length := List.length_pos.mpr hne
  have hc0 : stem.getLast? = some (stem.getLast hne) :=
    List.getLast?_eq_getLast stem hne
  set c0 : Char := stem.getLast hne with hc0def
  have hc0dot : c0 ≠ '.' := fun h => hldot (by rw [hc0, h])
  have hc0slash : c0 ≠ '/' := fun h => hlslash (by rw [hc0, h])
  have hdecomp : stem.dropLast ++ [c0] = stem := List.dropLast_append_getLast hne
  have hstem_idx : stem[stem.length - 1]? = some c0 := by
    have h1 : (stem.dropLast ++ [c0])[stem.dropLast.length]? = some c0 :=
      List.getElem?_concat_length _ _
    rw [hdecomp, List.length_dropLast] at h1
    exact h1
  have hp_idx : (stem ++ '.' :: ext)[stem.length - 1]? = some c0 := by
    rw [List.getElem?_append, if_pos (by omega)]
    exact hstem_idx
  have hdotidx : rfindIdx '.' (stem ++ '.' :: ext) = some stem.length :=
    rfindIdx_append_last '.' hdot stem
  have hslc : ('/' : Char) ∉ '.' :: ext := by
    intro hmem
    rcases List.mem_cons.mp hmem with h | h
    · exact absurd h (by decide)
    · exact hslash h
  have hsepeq : rfindIdx '/' (stem ++ '.' :: ext) = rfindIdx '/' stem :=
    rfindIdx_append_of_not_mem '/' hslc stem
  have hplen : stem.length - 1 < (stem ++ '.' :: ext).length := by
    rw [List.length_append, List.length_cons]
    omega
  have hsep_bound : ∀ i : ℕ, rfindIdx '/' stem = some i → i < stem.length - 1 := by
    intro i hi
    obtain ⟨hilt, higet⟩ := rfindIdx_spec '/' hi
    rcases Nat.lt_or_ge i (stem.length - 1) with h | h
    · exact h
    · exfalso
      have heq : i = stem.length - 1 := by omega
      rw [heq, hstem_idx] at higet
      exact hc0slash (Option.some.inj higet)
  unfold splitextRoot
  rw [hdotidx, hsepeq]
  cases hsep : rfindIdx '/' stem with
  | none =>
      rw [if_pos ⟨by push_cast; omega, ⟨stem.length - 1, List.mem_range.mpr hplen,
        by push_cast; omega, by push_cast; omega,
        by rw [hp_idx]; simp [hc0dot]⟩⟩]
      rw [Int.toNat_natCast]
      exact List.take_left stem _
  | some i =>
      have hib := hsep_bound i hsep
      rw [if_pos ⟨by push_cast; omega, ⟨stem.length - 1, List.mem_range.mpr hplen,
        by push_cast; omega, by push_cast; omega,
        by rw [hp_idx]; simp [hc0dot]⟩⟩]
      rw [Int.toNat_natCast]
      exact List.take_left stem _

lemma files_slash_split : ("_files/".data : List Char)
    = "_files".data ++ "/".data := rfl

/-- C8. For every pyramid identifier with an extension (a dot-free,
slash-free non-empty extension after a stem whose basename does not end in
`'.'` or `'/'`) and every key, the Tile Source resolves — on both the URL and
the local-path branch — exactly the layout
`{base-without-extension}_files/{level}/{col}_{row}.{format}`, and the
sample-pyramid generator writes tiles at exactly that layout. -/
theorem tile_path_layout (stem ext fmt : List Char) (level col row : ℕ)
    (w h t o : ℕ) (th : ℚ) (u : Bool)
    (hdot : '.' ∉ ext) (hslash : '/' ∉ ext) (hne : stem ≠ [])
    (hldot : stem.getLast? ≠ some '.') (hlslash : stem.getLast? ≠ some '/') :
    (DeepzoomImage.mk w h t o fmt th (stem ++ '.' :: ext) u).get_tile_source_path
        level col row = dzi_tile_layout stem fmt level col row ∧
    create_sample_tile_path (stem ++ '.' :: ext) fmt level col row
      = dzi_tile_layout stem fmt level col row := by
  have hsplit : splitextRoot (stem ++ '.' :: ext) = stem :=
    splitextRoot_concat hdot hslash hne hldot hlslash
  constructor
  · unfold DeepzoomImage.get_tile_source_path
    cases u with
    | true =>
        rw [if_pos rfl, takeToLastDot_concat hdot]
        rfl
    | false =>
        rw [if_neg (by simp), hsplit]
        unfold dzi_tile_layout
        rw [files_slash_split]
        simp [List.append_assoc]
  · unfold create_sample_tile_path
    rw [hsplit]
    unfold dzi_tile_layout
    rw [files_slash_split]
    simp [List.append_assoc]

/-- Witness for `tile_path_layout`: `sample.dzi`, format `jpg`, tile
`(3, 2, 5)` on the local-path branch. -/
theorem tile_path_layout_witness :
    (('.' ∉ "dzi".data) ∧ ('/' ∉ "dzi".data) ∧ "sample".data ≠ [] ∧
      "sample".data.getLast? ≠ some '.' ∧ "sample".data.getLast? ≠ some '/') ∧
    ((DeepzoomImage.mk 4000 3000 254 1 "jpg".data 0
        ("sample".data ++ '.' :: "dzi".data) false).get_tile_source_path 3 2 5
      = dzi_tile_layout "sample".data "jpg".data 3 2 5 ∧
     create_sample_tile_path ("sample".data ++ '.' :: "dzi".data) "jpg".data 3 2 5
      = dzi_tile_layout "sample".data "jpg".data 3 2 5) :=
  ⟨⟨by decide, by decide, by decide, by decide, by decide⟩,
    tile_path_layout "sample".data "dzi".data "jpg".data 3 2 5 4000 3000 254 1 0
      false (by decide) (by decide) (by decide) (by decide) (by decide)⟩

end Imagep
